import Mathlib

/-!
Verification development for the batch analysis job engine of the LittteC
repository.

The repository ships the React frontend of the engine
(`frontend/src/components/BatchAnalysisProgress.tsx`,
`frontend/src/components/BatchAnalysisModal.tsx`, and the `EmailAnalyzer`
component); the FastAPI backend that hosts the scheduler, retry policy and
job record is not part of the source tree.  Definitions below therefore come
in two groups: functions translated directly from the frontend source, and
backend operations modelled from the specification (each such definition says
so in its doc comment).

Strings manipulated by the keyword-filter code are modelled as `List Char`,
so that the JavaScript `trim` semantics can be stated and reasoned about
directly.
-/

namespace LittteC

/-- Job status values used across the system: the five literals of the
frontend union plus `INTERRUPTED`, which the spec's data model (§3) and the
frontend's own branching logic (resume guards, status labels) handle. -/
inductive JobStatus where
  | PENDING
  | RUNNING
  | COMPLETED
  | FAILED
  | CANCELLED
  | INTERRUPTED
deriving DecidableEq, BEq, Repr, Fintype

/-- The status literals admitted by the declared TypeScript union type
`JobStatus.status` in `BatchAnalysisProgress.tsx` (line 16):
`'PENDING' | 'RUNNING' | 'COMPLETED' | 'FAILED' | 'CANCELLED'`. -/
def declaredStatusUnion : List JobStatus :=
  [.PENDING, .RUNNING, .COMPLETED, .FAILED, .CANCELLED]

/-- From `BatchAnalysisProgress.tsx` line 157:
`status.status === 'RUNNING' || status.status === 'PENDING'`. -/
def isActive (s : JobStatus) : Bool :=
  s == .RUNNING || s == .PENDING

/-- From `BatchAnalysisProgress.tsx` line 158:
`status.status === 'FAILED' || status.status === 'CANCELLED' || status.status === 'INTERRUPTED'`. -/
def isResumable (s : JobStatus) : Bool :=
  s == .FAILED || s == .CANCELLED || s == .INTERRUPTED

/-- From `BatchAnalysisProgress.tsx` lines 169-173: the nested conditional
mapping the status to its display label, with a final default branch. -/
def statusLabel : JobStatus → String
  | .RUNNING => "运行中"
  | .COMPLETED => "已完成"
  | .FAILED => "失败"
  | .CANCELLED => "已取消"
  | .INTERRUPTED => "已中断"
  | .PENDING => "等待中"

/-- From the `EmailAnalyzer` component (job-history list, lines 1111-1115):
the nested conditional mapping each history entry's status to a label, with a
final default branch. -/
def jobHistoryStatusLabel : JobStatus → String
  | .COMPLETED => "已完成"
  | .RUNNING => "运行中"
  | .FAILED => "失败"
  | .INTERRUPTED => "已中断"
  | .CANCELLED => "已取消"
  | .PENDING => "待处理"

/-- From `BatchAnalysisProgress.tsx` lines 82-86: the 2-second interval
callback fetches the status only when the last observed status is RUNNING or
PENDING (`status?.status === 'RUNNING' || status?.status === 'PENDING'`);
before the first response is stored the optional chain yields no match. -/
def intervalTickFetches : Option JobStatus → Bool
  | some s => s == .RUNNING || s == .PENDING
  | none => false

/-- Iterated firings of the 2-second interval: `results i` is the status the
backend would report if the i-th firing fetched.  A firing fetches exactly
when the guard of lines 82-86 holds for the stored status, in which case the
response replaces the stored status.  Returns the final stored status and
how many interval-driven fetches were issued. -/
def pollRun (results : Nat → JobStatus) (observed : Option JobStatus) :
    Nat → Option JobStatus × Nat
  | 0 => (observed, 0)
  | n + 1 =>
    if intervalTickFetches observed then
      let rest := pollRun (fun i => results (i + 1)) (some (results 0)) n
      (rest.1, rest.2 + 1)
    else
      pollRun (fun i => results (i + 1)) observed n

/-- A backend that always reports COMPLETED, used to instantiate the polling
model at a concrete input. -/
def constCompleted : Nat → JobStatus := fun _ => JobStatus.COMPLETED

/-- Initial value of the concurrency state in `BatchAnalysisModal.tsx`
line 32: `useState(5)`. -/
def initialConcurrency : Nat := 5

/-- The `min` attribute of the concurrency range input,
`BatchAnalysisModal.tsx` line 264. -/
def concurrencySliderMin : Nat := 1

/-- The `max` attribute of the concurrency range input,
`BatchAnalysisModal.tsx` line 265. -/
def concurrencySliderMax : Nat := 10

/-- Whether a value can be configured through the modal's concurrency range
input, which clamps to its `min`/`max` attributes (1 and 10). -/
def concurrencyAllowed (c : Nat) : Bool :=
  concurrencySliderMin ≤ c && c ≤ concurrencySliderMax

/-- Characters removed by the JavaScript `String.prototype.trim` used in
`handleAddKeyword` (the ASCII WhiteSpace and LineTerminator characters plus
the no-break space). -/
def isJsWhitespace (c : Char) : Bool :=
  c == ' ' || c == '\t' || c == '\n' || c == '\r' ||
  c == '\u000B' || c == '\u000C' || c == ' '

/-- JavaScript `String.prototype.trim` on the character-list model of
strings: remove leading and trailing whitespace. -/
def jsTrim (s : List Char) : List Char :=
  ((s.dropWhile isJsWhitespace).reverse.dropWhile isJsWhitespace).reverse

/-- Whether a string is whitespace-only (the empty string included). -/
def wsOnly (s : List Char) : Bool := s.all isJsWhitespace

/-- From `BatchAnalysisModal.tsx` lines 91-97: trim the input; append it to
the keyword list only when it is non-empty and not already present. -/
def handleAddKeyword (filterKeywords : List (List Char))
    (newKeyword : List Char) : List (List Char) :=
  if jsTrim newKeyword ≠ [] ∧ jsTrim newKeyword ∉ filterKeywords then
    filterKeywords ++ [jsTrim newKeyword]
  else filterKeywords

/-- From `BatchAnalysisModal.tsx` lines 100-102: remove a keyword by
filtering out entries equal to it. -/
def handleRemoveKeyword (filterKeywords : List (List Char))
    (keyword : List Char) : List (List Char) :=
  filterKeywords.filter (fun k => k ≠ keyword)

/-- User interactions with the keyword list in the modal. -/
inductive KeywordEvent where
  | add : List Char → KeywordEvent
  | remove : List Char → KeywordEvent

/-- Apply one keyword interaction to the list state. -/
def applyKeywordEvent (l : List (List Char)) : KeywordEvent → List (List Char)
  | .add s => handleAddKeyword l s
  | .remove s => handleRemoveKeyword l s

/-- The keyword list reached from the initial `useState<string[]>([])` state
by a sequence of add/remove interactions. -/
def keywordsAfter (events : List KeywordEvent) : List (List Char) :=
  events.foldl applyKeywordEvent []

/-- The keyword-list invariant: no duplicate entry and no whitespace-only
entry. -/
def goodKeywordList (l : List (List Char)) : Prop :=
  l.Nodup ∧ ∀ k ∈ l, wsOnly k = false

/-- The progress counters of the job record, as exposed to the polling
client in `JobStatus.progress` (`BatchAnalysisProgress.tsx` lines 17-24). -/
structure Progress where
  total : Nat
  processed : Nat
  success : Nat
  failed : Nat
  skipped : Nat
deriving DecidableEq, Repr

/-- Outcome of one dispatched work item. -/
inductive ItemOutcome where
  | success
  | failure
  | skip
deriving DecidableEq, BEq, Repr

/-- Modelled from the spec: the backend Progress Tracker is not under the
source tree; spec §4.4 says every item outcome (success, failure, skip)
triggers an increment of the corresponding counter and of `processed`. -/
def recordOutcome (p : Progress) : ItemOutcome → Progress
  | .success => { p with processed := p.processed + 1, success := p.success + 1 }
  | .failure => { p with processed := p.processed + 1, failed := p.failed + 1 }
  | .skip => { p with processed := p.processed + 1, skipped := p.skipped + 1 }

/-- Modelled from the spec: counters start at zero with `total` fixed by
enumeration (spec §3). -/
def initProgress (total : Nat) : Progress :=
  { total := total, processed := 0, success := 0, failed := 0, skipped := 0 }

/-- Fold a sequence of item outcomes into the progress counters. -/
def runOutcomes (p : Progress) (outcomes : List ItemOutcome) : Progress :=
  outcomes.foldl recordOutcome p

/-- Number of items whose outcome was `failure`. -/
def countFailures : List ItemOutcome → Nat
  | [] => 0
  | .failure :: t => countFailures t + 1
  | .success :: t => countFailures t
  | .skip :: t => countFailures t

/-- The job record: status, counters, and the job-level error message
(spec §3; the remaining fields of the record are identifiers and timestamps
the claims do not constrain). -/
structure Job where
  status : JobStatus
  progress : Progress
  error_message : Option String
deriving DecidableEq, Repr

/-- Modelled from the spec: job creation is backend code not under the
source tree; spec §3 creates the job in PENDING, and spec §4.4 treats
`total = 0` as an immediate COMPLETED job rather than an error. -/
def createJob (total : Nat) : Job :=
  { status := if total = 0 then .COMPLETED else .PENDING
    progress := initProgress total
    error_message := none }

/-- Modelled from the spec: §4.4 "When `processed == total`, the Scheduler
transitions the Job to COMPLETED (or FAILED if a terminal systemic error was
recorded)". -/
def finishCheck (j : Job) : Job :=
  if j.progress.processed = j.progress.total then
    match j.error_message with
    | some _ => { j with status := .FAILED }
    | none => { j with status := .COMPLETED }
  else j

/-- Modelled from the spec: a complete run of a job with no systemic error,
folding the per-item outcomes into the counters and then applying the
terminal-status check of §4.4. -/
def runJob (total : Nat) (outcomes : List ItemOutcome) : Job :=
  finishCheck { createJob total with
                  progress := runOutcomes (initProgress total) outcomes }

/-- Modelled from the spec: §4.4 percent complete is
`floor(processed / total * 100)`; natural division is the floor. -/
def percent (processed total : Nat) : Nat :=
  processed * 100 / total

/-- Result of one call to the AI Caller for one attempt. -/
inductive AttemptResult where
  | ok
  | transientError
  | permanentError
deriving DecidableEq, BEq, Repr

/-- A fault model in which every attempt raises a transient error. -/
def alwaysTransient : Nat → AttemptResult := fun _ => AttemptResult.transientError

/-- Modelled from the spec: the backend Retry Policy is not under the source
tree; spec §4.2 retries a transient failure while retries remain, fails
immediately on a permanent failure, and counts the item `failed` once
retries are exhausted.  `caller n` is the AI Caller's behaviour on the n-th
attempt; returns the number of attempts made and the item outcome. -/
def retryFrom (caller : Nat → AttemptResult) :
    Nat → Nat → Nat × ItemOutcome
  | attempt, retriesLeft =>
    match caller attempt, retriesLeft with
    | .ok, _ => (attempt + 1, .success)
    | .permanentError, _ => (attempt + 1, .failure)
    | .transientError, 0 => (attempt + 1, .failure)
    | .transientError, r + 1 => retryFrom caller (attempt + 1) r

/-- Modelled from the spec: process one item with up to `max_retries`
retries after the initial attempt. -/
def attemptItem (caller : Nat → AttemptResult) (max_retries : Nat) :
    Nat × ItemOutcome :=
  retryFrom caller 0 max_retries

/-- Modelled from the spec: §4.2 exponential backoff — base delay doubling
per attempt, capped at a maximum delay. -/
def backoffDelay (baseDelay cap attempt : Nat) : Nat :=
  min (baseDelay * 2 ^ attempt) cap

/-- Error detail returned by the resume endpoint on a non-resumable job. -/
def notResumableDetail : String := "job is not in a resumable status"

/-- Error detail returned by the cancel endpoint on a terminal job. -/
def notCancellableDetail : String := "cannot cancel a finished job"

/-- Modelled from the spec: the backend resume endpoint is not under the
source tree; spec §4.6 makes `resume(old_job_id) -> new_job_id` valid only
when the old job's status is FAILED, CANCELLED or INTERRUPTED, returning an
error to the caller otherwise.  The guard is the same condition as the
frontend `isResumable`. -/
def resume (j : Job) (newJobId : Nat) : Except String Nat :=
  if isResumable j.status then Except.ok newJobId
  else Except.error notResumableDetail

/-- Modelled from the spec: the backend cancel endpoint is not under the
source tree; spec §4.5 makes `cancel(job_id)` valid only while the status is
PENDING or RUNNING; on a terminal job it reports an error to the caller and
mutates nothing.  Returns the (possibly updated) job record and the call's
result.  The guard is the same condition as the frontend `isActive`. -/
def cancel (j : Job) : Job × Except String Unit :=
  if isActive j.status then ({ j with status := .CANCELLED }, Except.ok ())
  else (j, Except.error notCancellableDetail)

/-- A five-item job observed in the INTERRUPTED status, used to instantiate
the control-call contracts at a concrete input. -/
def interruptedJob : Job :=
  { status := JobStatus.INTERRUPTED
    progress := initProgress 5
    error_message := none }

/-- A five-item job observed in the RUNNING status. -/
def runningJob : Job :=
  { status := JobStatus.RUNNING
    progress := initProgress 5
    error_message := none }

/-- A two-item job observed in the COMPLETED status. -/
def completedJob : Job :=
  { status := JobStatus.COMPLETED
    progress := initProgress 2
    error_message := none }

/-! Helper lemmas about the progress counters. -/

theorem runOutcomes_cons (p : Progress) (o : ItemOutcome)
    (os : List ItemOutcome) :
    runOutcomes p (o :: os) = runOutcomes (recordOutcome p o) os := rfl

theorem recordOutcome_total (p : Progress) (o : ItemOutcome) :
    (recordOutcome p o).total = p.total := by
  cases o <;> rfl

theorem recordOutcome_processed (p : Progress) (o : ItemOutcome) :
    (recordOutcome p o).processed = p.processed + 1 := by
  cases o <;> rfl

theorem recordOutcome_sum (p : Progress) (o : ItemOutcome) :
    (recordOutcome p o).success + (recordOutcome p o).failed +
      (recordOutcome p o).skipped = p.success + p.failed + p.skipped + 1 := by
  cases o <;> simp [recordOutcome] <;> omega

theorem runOutcomes_total (os : List ItemOutcome) :
    ∀ p : Progress, (runOutcomes p os).total = p.total := by
  induction os with
  | nil => intro p; rfl
  | cons o t ih =>
    intro p
    rw [runOutcomes_cons, ih, recordOutcome_total]

theorem runOutcomes_processed (os : List ItemOutcome) :
    ∀ p : Progress, (runOutcomes p os).processed = p.processed + os.length := by
  induction os with
  | nil => intro p; rfl
  | cons o t ih =>
    intro p
    rw [runOutcomes_cons, ih, recordOutcome_processed, List.length_cons]
    omega

theorem runOutcomes_sum (os : List ItemOutcome) :
    ∀ p : Progress,
      (runOutcomes p os).success + (runOutcomes p os).failed +
        (runOutcomes p os).skipped =
        p.success + p.failed + p.skipped + os.length := by
  induction os with
  | nil => intro p; rfl
  | cons o t ih =>
    intro p
    rw [runOutcomes_cons, ih (recordOutcome p o), recordOutcome_sum,
      List.length_cons]
    omega

theorem runOutcomes_failed (os : List ItemOutcome) :
    ∀ p : Progress,
      (runOutcomes p os).failed = p.failed + countFailures os := by
  induction os with
  | nil => intro p; rfl
  | cons o t ih =>
    intro p
    rw [runOutcomes_cons, ih (recordOutcome p o)]
    cases o with
    | success => simp [recordOutcome, countFailures]
    | failure => simp [recordOutcome, countFailures]; omega
    | skip => simp [recordOutcome, countFailures]

/-- C1: for every job at every time, the progress counters satisfy
`processed = success + failed + skipped` and `processed ≤ total` — stated
over every sequence of item outcomes a run can produce (at most one outcome
per enumerated item). -/
theorem counters_invariant (total : Nat) (outcomes : List ItemOutcome)
    (h : outcomes.length ≤ total) :
    (runOutcomes (initProgress total) outcomes).processed =
      (runOutcomes (initProgress total) outcomes).success +
        (runOutcomes (initProgress total) outcomes).failed +
        (runOutcomes (initProgress total) outcomes).skipped ∧
    (runOutcomes (initProgress total) outcomes).processed ≤
      (runOutcomes (initProgress total) outcomes).total := by
  have h1 := runOutcomes_total outcomes (initProgress total)
  have h2 := runOutcomes_processed outcomes (initProgress total)
  have h3 := runOutcomes_sum outcomes (initProgress total)
  have e1 : (initProgress total).total = total := rfl
  have e2 : (initProgress total).processed = 0 := rfl
  have e3 : (initProgress total).success = 0 := rfl
  have e4 : (initProgress total).failed = 0 := rfl
  have e5 : (initProgress total).skipped = 0 := rfl
  rw [h1, h2, h3, e1, e2, e3, e4, e5]
  omega

/-- Concrete instance of `counters_invariant`: three items on a job of four,
one of each outcome. -/
theorem counters_invariant_witness :
    ([ItemOutcome.success, ItemOutcome.failure, ItemOutcome.skip] :
        List ItemOutcome).length ≤ 4 ∧
    ((runOutcomes (initProgress 4)
        [ItemOutcome.success, ItemOutcome.failure, ItemOutcome.skip]).processed =
      (runOutcomes (initProgress 4)
        [ItemOutcome.success, ItemOutcome.failure, ItemOutcome.skip]).success +
        (runOutcomes (initProgress 4)
          [ItemOutcome.success, ItemOutcome.failure, ItemOutcome.skip]).failed +
        (runOutcomes (initProgress 4)
          [ItemOutcome.success, ItemOutcome.failure, ItemOutcome.skip]).skipped ∧
    (runOutcomes (initProgress 4)
        [ItemOutcome.success, ItemOutcome.failure, ItemOutcome.skip]).processed ≤
      (runOutcomes (initProgress 4)
        [ItemOutcome.success, ItemOutcome.failure, ItemOutcome.skip]).total) :=
  ⟨by decide, counters_invariant 4
    [ItemOutcome.success, ItemOutcome.failure, ItemOutcome.skip] (by decide)⟩

/-! Retry policy lemmas. -/

theorem retryFrom_all_transient (caller : Nat → AttemptResult)
    (h : ∀ n, caller n = AttemptResult.transientError) :
    ∀ r a : Nat, retryFrom caller a r = (a + r + 1, ItemOutcome.failure) := by
  intro r
  induction r with
  | zero =>
    intro a
    unfold retryFrom
    rw [h a]
  | succ r ih =>
    intro a
    unfold retryFrom
    rw [h a]
    show retryFrom caller (a + 1) r = _
    rw [ih (a + 1)]
    have : a + 1 + r + 1 = a + (r + 1) + 1 := by omega
    rw [this]

theorem backoffDelay_mono (baseDelay cap i : Nat) :
    backoffDelay baseDelay cap i ≤ backoffDelay baseDelay cap (i + 1) := by
  unfold backoffDelay
  have h2 : (2 : Nat) ^ i ≤ 2 ^ (i + 1) :=
    Nat.pow_le_pow_right (by omega) (by omega)
  exact min_le_min (Nat.mul_le_mul (Nat.le_refl baseDelay) h2)
    (Nat.le_refl cap)

/-- C2: an item whose AI Caller raises a transient error on every attempt is
attempted exactly `max_retries + 1` times before being counted failed, and
the exponential-backoff delays between successive attempts are
non-decreasing. -/
theorem retry_transient_exhaustion :
    (∀ (caller : Nat → AttemptResult) (max_retries : Nat),
        (∀ n, caller n = AttemptResult.transientError) →
        attemptItem caller max_retries =
          (max_retries + 1, ItemOutcome.failure)) ∧
    (∀ baseDelay cap i : Nat,
        backoffDelay baseDelay cap i ≤ backoffDelay baseDelay cap (i + 1)) := by
  constructor
  · intro caller m h
    unfold attemptItem
    rw [retryFrom_all_transient caller h m 0]
    rw [Nat.zero_add]
  · exact backoffDelay_mono

/-- Concrete instance of `retry_transient_exhaustion`: with three retries an
always-transient item makes four attempts and is counted failed. -/
theorem retry_transient_exhaustion_witness :
    attemptItem alwaysTransient 3 = (4, ItemOutcome.failure) :=
  retry_transient_exhaustion.1 alwaysTransient 3 (fun _ => rfl)

/-- C7: percent complete is the floor of `processed / total * 100` (the
natural-division characterization of the floor), and a job created with
`total = 0` is immediately COMPLETED with no job-level error. -/
theorem percent_floor_and_zero_total :
    (∀ processed total : Nat, 0 < total →
        percent processed total * total ≤ processed * 100 ∧
        processed * 100 < (percent processed total + 1) * total) ∧
    (createJob 0).status = JobStatus.COMPLETED ∧
    (createJob 0).error_message = none := by
  refine ⟨?_, rfl, rfl⟩
  intro processed total ht
  constructor
  · exact Nat.div_mul_le_self (processed * 100) total
  · have hdm := Nat.div_add_mod (processed * 100) total
    have hlt : processed * 100 % total < total := Nat.mod_lt _ ht
    have hstep : processed * 100 < total * (processed * 100 / total + 1) := by
      have hx : total * (processed * 100 / total + 1) =
          total * (processed * 100 / total) + total := by
        rw [Nat.mul_add, Nat.mul_one]
      rw [hx]
      omega
    calc processed * 100 < total * (processed * 100 / total + 1) := hstep
      _ = (percent processed total + 1) * total := Nat.mul_comm _ _

/-- Concrete instance of `percent_floor_and_zero_total`: 7 of 3 hundredths,
`percent 7 3 = 233`. -/
theorem percent_floor_witness :
    0 < 3 ∧ (percent 7 3 * 3 ≤ 7 * 100 ∧
      7 * 100 < (percent 7 3 + 1) * 3) :=
  ⟨by decide, percent_floor_and_zero_total.1 7 3 (by decide)⟩

/-- C8: a job in which every item is processed finishes COMPLETED even when
items are counted failed; the failed counter records exactly the per-item
failures and the job-level status never becomes FAILED because of them. -/
theorem completed_despite_failures (total : Nat) (outcomes : List ItemOutcome)
    (h : outcomes.length = total) :
    (runJob total outcomes).status = JobStatus.COMPLETED ∧
    (runJob total outcomes).progress.failed = countFailures outcomes := by
  have hp : (runOutcomes (initProgress total) outcomes).processed =
      outcomes.length := by
    rw [runOutcomes_processed]
    simp [initProgress]
  have ht : (runOutcomes (initProgress total) outcomes).total = total := by
    rw [runOutcomes_total]
    rfl
  have hf : (runOutcomes (initProgress total) outcomes).failed =
      countFailures outcomes := by
    rw [runOutcomes_failed]
    simp [initProgress]
  have hcond : (runOutcomes (initProgress total) outcomes).processed =
      (runOutcomes (initProgress total) outcomes).total := by
    rw [hp, ht, h]
  simp [runJob, finishCheck, createJob, hcond, hf]

/-- Concrete instance of `completed_despite_failures`: three items, two of
them failed, final status COMPLETED. -/
theorem completed_despite_failures_witness :
    ([ItemOutcome.failure, ItemOutcome.failure, ItemOutcome.success] :
        List ItemOutcome).length = 3 ∧
    ((runJob 3 [ItemOutcome.failure, ItemOutcome.failure,
        ItemOutcome.success]).status = JobStatus.COMPLETED ∧
      (runJob 3 [ItemOutcome.failure, ItemOutcome.failure,
        ItemOutcome.success]).progress.failed =
        countFailures [ItemOutcome.failure, ItemOutcome.failure,
          ItemOutcome.success]) :=
  ⟨by decide, completed_despite_failures 3
    [ItemOutcome.failure, ItemOutcome.failure, ItemOutcome.success]
    (by decide)⟩

/-! Status guards. -/

theorem isResumable_iff (s : JobStatus) :
    isResumable s = true ↔
      (s = JobStatus.FAILED ∨ s = JobStatus.CANCELLED ∨
        s = JobStatus.INTERRUPTED) := by
  cases s <;> decide

theorem isActive_iff (s : JobStatus) :
    isActive s = true ↔ (s = JobStatus.RUNNING ∨ s = JobStatus.PENDING) := by
  cases s <;> decide

/-- C3: `resume(old_job_id)` returns a new job id exactly when the old job's
status is FAILED, CANCELLED or INTERRUPTED, and returns an error to the
caller for a job in any other status. -/
theorem resume_requires_resumable_status (j : Job) (newJobId : Nat) :
    (resume j newJobId = Except.ok newJobId ↔
      (j.status = JobStatus.FAILED ∨ j.status = JobStatus.CANCELLED ∨
        j.status = JobStatus.INTERRUPTED)) ∧
    (resume j newJobId = Except.error notResumableDetail ↔
      ¬(j.status = JobStatus.FAILED ∨ j.status = JobStatus.CANCELLED ∨
        j.status = JobStatus.INTERRUPTED)) := by
  constructor
  · constructor
    · intro h
      by_cases hr : isResumable j.status = true
      · exact (isResumable_iff j.status).mp hr
      · exfalso
        unfold resume at h
        rw [if_neg hr] at h
        exact Except.noConfusion h
    · intro h
      unfold resume
      rw [if_pos ((isResumable_iff j.status).mpr h)]
  · constructor
    · intro h hmem
      unfold resume at h
      rw [if_pos ((isResumable_iff j.status).mpr hmem)] at h
      exact Except.noConfusion h
    · intro h
      have hr : ¬ isResumable j.status = true := fun hx =>
        h ((isResumable_iff j.status).mp hx)
      unfold resume
      rw [if_neg hr]

/-- Concrete instances of `resume_requires_resumable_status`: resuming an
INTERRUPTED job yields the new id; resuming a RUNNING job yields an error. -/
theorem resume_requires_resumable_status_witness :
    resume interruptedJob 7 = Except.ok 7 ∧
    resume runningJob 7 = Except.error notResumableDetail :=
  ⟨(resume_requires_resumable_status interruptedJob 7).1.mpr (by decide),
   (resume_requires_resumable_status runningJob 7).2.mpr (by decide)⟩

/-- C4: `cancel(job_id)` succeeds exactly while the status is PENDING or
RUNNING; on a job in any terminal status it reports an error to the caller
and leaves the job record unchanged. -/
theorem cancel_requires_active_status (j : Job) :
    ((cancel j).2 = Except.ok () ↔
      (j.status = JobStatus.PENDING ∨ j.status = JobStatus.RUNNING)) ∧
    (¬(j.status = JobStatus.PENDING ∨ j.status = JobStatus.RUNNING) →
      (cancel j).1 = j ∧ (cancel j).2 = Except.error notCancellableDetail) := by
  constructor
  · constructor
    · intro h
      by_cases ha : isActive j.status = true
      · rcases (isActive_iff j.status).mp ha with h1 | h1
        · exact Or.inr h1
        · exact Or.inl h1
      · exfalso
        unfold cancel at h
        rw [if_neg ha] at h
        simp at h
    · intro h
      have ha : isActive j.status = true := by
        rcases h with h1 | h1
        · exact (isActive_iff j.status).mpr (Or.inr h1)
        · exact (isActive_iff j.status).mpr (Or.inl h1)
      unfold cancel
      rw [if_pos ha]
  · intro h
    have ha : ¬ isActive j.status = true := by
      intro hx
      rcases (isActive_iff j.status).mp hx with h1 | h1
      · exact h (Or.inr h1)
      · exact h (Or.inl h1)
    unfold cancel
    rw [if_neg ha]
    exact ⟨rfl, rfl⟩

/-- Concrete instance of `cancel_requires_active_status`: cancelling a
COMPLETED job errors and mutates nothing. -/
theorem cancel_requires_active_status_witness :
    ¬(completedJob.status = JobStatus.PENDING ∨
        completedJob.status = JobStatus.RUNNING) ∧
    ((cancel completedJob).1 = completedJob ∧
      (cancel completedJob).2 = Except.error notCancellableDetail) :=
  ⟨by decide, (cancel_requires_active_status completedJob).2 (by decide)⟩

/-- C5 counterexample: 20 lies in the claimed 1-20 range, yet the modal's
concurrency range input cannot be set to it (its `max` attribute is 10). -/
theorem concurrency_twenty_not_configurable :
    1 ≤ 20 ∧ 20 ≤ 20 ∧ concurrencyAllowed 20 = false := by
  decide

/-- C5 (amended): the modal's concurrency slider admits exactly the values
1 to 10, and the initial value 5 lies in that range. -/
theorem concurrency_slider_bounds :
    (∀ c : Nat, concurrencyAllowed c = true ↔
      (concurrencySliderMin ≤ c ∧ c ≤ concurrencySliderMax)) ∧
    concurrencySliderMin = 1 ∧ concurrencySliderMax = 10 ∧
    concurrencyAllowed initialConcurrency = true := by
  refine ⟨?_, rfl, rfl, rfl⟩
  intro c
  simp [concurrencyAllowed, Bool.and_eq_true, decide_eq_true_eq]

/-- C6: the component logic handles INTERRUPTED (resume guard and both
status-label maps) and INTERRUPTED completes the six-value status space, yet
the declared TypeScript union type for the polling client's `status` field
omits it. -/
theorem interrupted_missing_from_declared_union :
    JobStatus.INTERRUPTED ∉ declaredStatusUnion ∧
    isResumable JobStatus.INTERRUPTED = true ∧
    statusLabel JobStatus.INTERRUPTED = "已中断" ∧
    jobHistoryStatusLabel JobStatus.INTERRUPTED = "已中断" ∧
    ∀ s : JobStatus, s ∈ declaredStatusUnion ∨ s = JobStatus.INTERRUPTED := by
  refine ⟨?_, rfl, rfl, rfl, ?_⟩
  · simp [declaredStatusUnion]
  · intro s
    cases s <;> simp [declaredStatusUnion]

/-! Polling lemmas. -/

theorem pollRun_stays (s : JobStatus) (h : isActive s = false) :
    ∀ (n : Nat) (results : Nat → JobStatus),
      pollRun results (some s) n = (some s, 0) := by
  intro n
  induction n with
  | zero => intro results; rfl
  | succ n ih =>
    intro results
    have hint : intervalTickFetches (some s) = false := h
    rw [pollRun, if_neg (by rw [hint]; exact Bool.false_ne_true)]
    exact ih (fun i => results (i + 1))

/-- C9: an interval firing issues a status fetch exactly when the last
observed status is RUNNING or PENDING, and once a non-active (terminal)
status has been observed no further interval-driven fetches occur, however
many firings follow. -/
theorem interval_polling_only_while_active :
    (∀ o : Option JobStatus,
      intervalTickFetches o = true ↔
        (o = some JobStatus.RUNNING ∨ o = some JobStatus.PENDING)) ∧
    (∀ s : JobStatus, isActive s = false →
      ∀ (results : Nat → JobStatus) (n : Nat),
        pollRun results (some s) n = (some s, 0)) := by
  constructor
  · intro o
    cases o with
    | none => decide
    | some s => cases s <;> decide
  · intro s h results n
    exact pollRun_stays s h n results

/-- Concrete instance of `interval_polling_only_while_active`: after a
COMPLETED status is observed, five more firings issue zero fetches. -/
theorem interval_polling_only_while_active_witness :
    isActive JobStatus.COMPLETED = false ∧
    pollRun constCompleted (some JobStatus.COMPLETED) 5 =
      (some JobStatus.COMPLETED, 0) :=
  ⟨by decide,
   interval_polling_only_while_active.2 JobStatus.COMPLETED (by decide)
     constCompleted 5⟩

/-! Keyword-list lemmas. -/

theorem dropWhile_cases {α : Type} (p : α → Bool) (l : List α) :
    l.dropWhile p = [] ∨
      ∃ a t, l.dropWhile p = a :: t ∧ p a = false := by
  induction l with
  | nil => exact Or.inl rfl
  | cons a t ih =>
    cases hpa : p a with
    | false =>
      right
      exact ⟨a, t, by simp [List.dropWhile, hpa], hpa⟩
    | true =>
      cases ih with
      | inl h0 => left; simpa [List.dropWhile, hpa] using h0
      | inr h0 =>
        obtain ⟨b, u, hb, hpb⟩ := h0
        right
        exact ⟨b, u, by simpa [List.dropWhile, hpa] using hb, hpb⟩

theorem mem_dropWhile_of {α : Type} (p : α → Bool) {a : α} :
    ∀ {l : List α}, a ∈ l → p a = false → a ∈ l.dropWhile p := by
  intro l
  induction l with
  | nil => intro h; cases h
  | cons b t ih =>
    intro hmem hpa
    cases hpb : p b with
    | false =>
      have hd : (b :: t).dropWhile p = b :: t := by
        simp [List.dropWhile, hpb]
      rw [hd]
      exact hmem
    | true =>
      have hd : (b :: t).dropWhile p = t.dropWhile p := by
        simp [List.dropWhile, hpb]
      rw [hd]
      rcases List.mem_cons.mp hmem with heq | hmem2
      · rw [heq, hpb] at hpa
        cases hpa
      · exact ih hmem2 hpa

theorem jsTrim_not_wsOnly {s : List Char} (h : jsTrim s ≠ []) :
    wsOnly (jsTrim s) = false := by
  rcases dropWhile_cases isJsWhitespace s with h0 | ⟨a, t, ha, hpa⟩
  · exfalso
    apply h
    unfold jsTrim
    rw [h0]
    rfl
  · have hmem : a ∈ jsTrim s := by
      unfold jsTrim
      rw [ha]
      have h1 : a ∈ (a :: t).reverse := by simp
      exact List.mem_reverse.mpr (mem_dropWhile_of isJsWhitespace h1 hpa)
    unfold wsOnly
    cases hall : (jsTrim s).all isJsWhitespace with
    | false => rfl
    | true =>
      exfalso
      have := List.all_eq_true.mp hall a hmem
      rw [hpa] at this
      cases this

theorem handleAddKeyword_forms (l : List (List Char)) (s : List Char) :
    handleAddKeyword l s = l ∨
      (handleAddKeyword l s = l ++ [jsTrim s] ∧ jsTrim s ≠ [] ∧
        jsTrim s ∉ l) := by
  unfold handleAddKeyword
  by_cases h : jsTrim s ≠ [] ∧ jsTrim s ∉ l
  · right
    rw [if_pos h]
    exact ⟨rfl, h.1, h.2⟩
  · left
    rw [if_neg h]

theorem goodKeywordList_add {l : List (List Char)} {s : List Char}
    (h : goodKeywordList l) : goodKeywordList (handleAddKeyword l s) := by
  rcases handleAddKeyword_forms l s with heq | ⟨heq, hne, hnotmem⟩
  · rw [heq]
    exact h
  · rw [heq]
    constructor
    · rw [List.nodup_append]
      refine ⟨h.1, List.nodup_singleton _, ?_⟩
      intro x hx hx2
      rw [List.mem_singleton] at hx2
      rw [hx2] at hx
      exact hnotmem hx
    · intro k hk
      rcases List.mem_append.mp hk with hk2 | hk2
      · exact h.2 k hk2
      · rw [List.mem_singleton] at hk2
        rw [hk2]
        exact jsTrim_not_wsOnly hne

theorem goodKeywordList_remove {l : List (List Char)} {k : List Char}
    (h : goodKeywordList l) : goodKeywordList (handleRemoveKeyword l k) := by
  constructor
  · exact h.1.filter _
  · intro x hx
    exact h.2 x (List.mem_of_mem_filter hx)

theorem goodKeywordList_event {l : List (List Char)} (h : goodKeywordList l)
    (e : KeywordEvent) : goodKeywordList (applyKeywordEvent l e) := by
  cases e with
  | add s => exact goodKeywordList_add h
  | remove s => exact goodKeywordList_remove h

theorem goodKeywordList_foldl :
    ∀ (evs : List KeywordEvent) (l : List (List Char)), goodKeywordList l →
      goodKeywordList (evs.foldl applyKeywordEvent l) := by
  intro evs
  induction evs with
  | nil => intro l h; exact h
  | cons e t ih =>
    intro l h
    exact ih _ (goodKeywordList_event h e)

/-- C10: adding a keyword inserts only a trimmed, non-empty string not
already present (or leaves the list unchanged), and every keyword list
reachable from the modal's initial empty state by add/remove interactions is
duplicate-free with no whitespace-only entry. -/
theorem keyword_list_invariant :
    (∀ (l : List (List Char)) (s : List Char),
        handleAddKeyword l s = l ∨
          (handleAddKeyword l s = l ++ [jsTrim s] ∧ jsTrim s ≠ [] ∧
            jsTrim s ∉ l)) ∧
    (∀ events : List KeywordEvent, goodKeywordList (keywordsAfter events)) := by
  constructor
  · exact handleAddKeyword_forms
  · intro events
    refine goodKeywordList_foldl events [] ⟨List.nodup_nil, ?_⟩
    intro k hk
    cases hk

end LittteC
